import Mathlib

/-!
Verification development for the `ai-extraction-tester` repository.

The repository's core (src/core/comparator.ts, src/core/schema-inference.ts,
src/core/scorer.ts, src/core/orchestrator.ts) is shallowly embedded below:
JSON values become a mutual inductive type, the stateful `push`-based
traversals of the TypeScript code become explicit state-passing functions on
a `ComparisonResult` record, and JavaScript numbers are modelled as rationals.
-/

mutual
/-- JSON values, as handled by the comparator.  JavaScript numbers are
modelled as rationals.  Objects are insertion-ordered key/value lists
(JavaScript object key order); well-formed JSON objects have distinct keys. -/
inductive Json where
  | null : Json
  | bool (b : Bool) : Json
  | num (q : ℚ) : Json
  | str (s : String) : Json
  | arr (xs : JsonList) : Json
  | obj (kvs : JsonObj) : Json
  deriving DecidableEq

inductive JsonList where
  | nil : JsonList
  | cons (hd : Json) (tl : JsonList) : JsonList
  deriving DecidableEq

inductive JsonObj where
  | nil : JsonObj
  | cons (k : String) (v : Json) (tl : JsonObj) : JsonObj
  deriving DecidableEq
end

/-- The JavaScript `typeof` operator on JSON values: null, arrays and plain
objects all have `typeof` equal to `"object"`. -/
def jsTypeOf : Json → String
  | .null => "object"
  | .bool _ => "boolean"
  | .num _ => "number"
  | .str _ => "string"
  | .arr _ => "object"
  | .obj _ => "object"

/-- A primitive (non-container, non-null) JSON value: boolean, number or
string. -/
def Json.isPrim : Json → Bool
  | .bool _ => true
  | .num _ => true
  | .str _ => true
  | _ => false

/-- JavaScript truthiness of a JSON value (used by the schema inferrer's
`value[0] || ''` fallback). -/
def jsTruthy : Json → Bool
  | .null => false
  | .bool b => b
  | .num q => q ≠ 0
  | .str s => s ≠ ""
  | .arr _ => true
  | .obj _ => true

/-- Length of a `JsonList`. -/
def JsonList.length : JsonList → Nat
  | .nil => 0
  | .cons _ tl => tl.length + 1

/-- Conversion to a standard list, for stating properties. -/
def JsonList.toList : JsonList → List Json
  | .nil => []
  | .cons hd tl => hd :: tl.toList

/-- First element, if any (JavaScript `xs[0]`, `undefined` on empty). -/
def JsonList.head? : JsonList → Option Json
  | .nil => none
  | .cons hd _ => some hd

/-- First three elements (JavaScript `xs.slice(0, 3)`), as sample values. -/
def JsonList.take3 : JsonList → List Json
  | .nil => []
  | .cons a .nil => [a]
  | .cons a (.cons b .nil) => [a, b]
  | .cons a (.cons b (.cons c _)) => [a, b, c]

/-- Keys of a JSON object, in insertion order (JavaScript `Object.keys`). -/
def JsonObj.keys : JsonObj → List String
  | .nil => []
  | .cons k _ tl => k :: tl.keys

/-- First value bound to a key, if present (JavaScript property lookup on an
object; with distinct keys this is the unique binding). -/
def JsonObj.lookup : JsonObj → String → Option Json
  | .nil, _ => none
  | .cons k v tl, key => if k = key then some v else tl.lookup key

/-- Model of the JavaScript number-to-string conversion used by `String()`
and `JSON.stringify` on numbers.  Integers print exactly as in JavaScript;
non-integral rationals are given a canonical injective rendering
(numerator/denominator), which preserves the only facts the comparator
depends on: equal numbers map to equal strings and distinct numbers map to
distinct strings. -/
def numToString (q : ℚ) : String :=
  if q.den = 1 then toString q.num
  else toString q.num ++ "/" ++ toString q.den

/-- Model of JavaScript's `Number(string)` conversion, `none` standing for
`NaN`.  The empty (or all-whitespace) string converts to `0`; an optional
sign followed by decimal digits with an optional fractional part parses as
a decimal number; anything else is `NaN`. -/
def strToNum (s : String) : Option ℚ :=
  let ws : Char → Bool := Char.isWhitespace
  let cs := ((s.toList.dropWhile ws).reverse.dropWhile ws).reverse
  if cs = [] then some 0
  else
    let neg : Bool := cs.head? = some '-'
    let core := if cs.head? = some '-' ∨ cs.head? = some '+' then cs.tail else cs
    let intPart := core.takeWhile (fun c => c ≠ '.')
    let rest := core.dropWhile (fun c => c ≠ '.')
    let toVal : List Char → ℕ := fun ds => ds.foldl (fun n c => n * 10 + (c.toNat - 48)) 0
    match rest with
    | [] =>
        if intPart ≠ [] ∧ intPart.all Char.isDigit then
          some (mkRat (if neg then -(toVal intPart : ℤ) else (toVal intPart : ℤ)) 1)
        else none
    | _ :: fracPart =>
        if fracPart.contains '.' then none
        else if (intPart ≠ [] ∨ fracPart ≠ []) ∧ intPart.all Char.isDigit ∧
            fracPart.all Char.isDigit then
          let mag : ℤ := (toVal intPart * 10 ^ fracPart.length + toVal fracPart : ℕ)
          some (mkRat (if neg then -mag else mag) (10 ^ fracPart.length))
        else none

/-- Model of JavaScript's `Number()` conversion of a JSON value (only the
number and string cases are ever reached by the comparator). -/
def jsToNumber : Json → Option ℚ
  | .null => some 0
  | .bool b => some (if b then 1 else 0)
  | .num q => some q
  | .str s => strToNum s
  | .arr _ => none
  | .obj _ => none

mutual
/-- Model of JavaScript's `String()` coercion on JSON values: primitives
print their value, arrays join their elements with commas (`null` elements
printing as the empty string), and plain objects print `[object Object]`. -/
def jsToString : Json → String
  | .null => "null"
  | .bool b => if b then "true" else "false"
  | .num q => numToString q
  | .str s => s
  | .arr xs => jsToStringList xs
  | .obj _ => "[object Object]"

/-- Comma-joined element rendering of `Array.prototype.toString`. -/
def jsToStringList : JsonList → String
  | .nil => ""
  | .cons hd .nil => (match hd with | .null => "" | v => jsToString v)
  | .cons hd tl =>
      (match hd with | .null => "" | v => jsToString v) ++ "," ++ jsToStringList tl
end

/-- Escape of one character inside a JSON string literal (quote and
backslash; other characters are emitted verbatim). -/
def escapeChar (c : Char) : String :=
  if c = '"' then "\\\"" else if c = '\\' then "\\\\" else String.singleton c

/-- JSON string-literal escaping used by `JSON.stringify`. -/
def jsonEscape (s : String) : String :=
  String.join (s.toList.map escapeChar)

mutual
/-- Model of `JSON.stringify` on JSON values (no spacing argument). -/
def jsonStringify : Json → String
  | .null => "null"
  | .bool b => if b then "true" else "false"
  | .num q => numToString q
  | .str s => "\"" ++ jsonEscape s ++ "\""
  | .arr xs => "[" ++ jsonStringifyList xs ++ "]"
  | .obj kvs => "\x7b" ++ jsonStringifyObj kvs ++ "\x7d"

def jsonStringifyList : JsonList → String
  | .nil => ""
  | .cons hd .nil => jsonStringify hd
  | .cons hd tl => jsonStringify hd ++ "," ++ jsonStringifyList tl

def jsonStringifyObj : JsonObj → String
  | .nil => ""
  | .cons k v .nil => "\"" ++ jsonEscape k ++ "\":" ++ jsonStringify v
  | .cons k v tl =>
      "\"" ++ jsonEscape k ++ "\":" ++ jsonStringify v ++ "," ++ jsonStringifyObj tl
end

mutual
/-- Well-formed JSON values: every object along the tree has distinct keys
(as is guaranteed for values produced by `JSON.parse`). -/
def Json.wf : Json → Bool
  | .null => true
  | .bool _ => true
  | .num _ => true
  | .str _ => true
  | .arr xs => xs.wfList
  | .obj kvs => kvs.keys.Nodup && kvs.wfObj

def JsonList.wfList : JsonList → Bool
  | .nil => true
  | .cons hd tl => hd.wf && tl.wfList

def JsonObj.wfObj : JsonObj → Bool
  | .nil => true
  | .cons _ v tl => v.wf && tl.wfObj
end

/-- Kind tag of a field mismatch (src/types/results.ts `FieldMismatch.type`). -/
inductive MKind where
  | value : MKind
  | type : MKind
  | numeric : MKind
  deriving DecidableEq

/-- One entry of `ComparisonResult.mismatches` (src/types/results.ts). -/
structure Mismatch where
  path : String
  groundTruth : Json
  actual : Json
  type : MKind
  deriving DecidableEq

/-- One entry of `ComparisonResult.missing` (src/types/results.ts). -/
structure MissingField where
  path : String
  expectedValue : Json
  deriving DecidableEq

/-- One entry of `ComparisonResult.extra` (src/types/results.ts). -/
structure ExtraField where
  path : String
  value : Json
  deriving DecidableEq

/-- One entry of `ComparisonResult.warnings` (src/types/results.ts). -/
structure OrderWarning where
  path : String
  message : String
  deriving DecidableEq

/-- The comparison diff record (src/types/results.ts `ComparisonResult`). -/
structure ComparisonResult where
  passed : Bool
  mismatches : List Mismatch
  missing : List MissingField
  extra : List ExtraField
  warnings : List OrderWarning
  deriving DecidableEq

/-- Array comparison strategy (src/types/config.ts). -/
inductive ArrayStrategy where
  | ordered : ArrayStrategy
  | unordered : ArrayStrategy
  deriving DecidableEq

/-- Comparison rules (src/types/config.ts `ComparisonRulesSchema`).  The
ignore set is modelled as the list of strings handed to `new Set(...)`. -/
structure ComparisonRules where
  ignoreFields : List String
  arrayStrategy : ArrayStrategy
  numericTolerance : ℚ
  typeCoercion : Bool
  extraFieldsWarning : Bool
  deriving DecidableEq

/-- The zod defaults of `ComparisonRulesSchema`: no ignored fields, unordered
arrays, zero tolerance, type coercion on, extra-fields warning on. -/
def defaultRules : ComparisonRules :=
  { ignoreFields := []
    arrayStrategy := .unordered
    numericTolerance := 0
    typeCoercion := true
    extraFieldsWarning := true }

/-- Dotted path of a child key (`path ? path + '.' + key : key`). -/
def joinPath (path key : String) : String :=
  if path = "" then key else path ++ "." ++ key

/-- Bracketed path of an array item (`path + '[' + i + ']'`). -/
def itemPath (path : String) (i : Nat) : String :=
  path ++ "[" ++ toString i ++ "]"

/-- Membership test `key in actual` of the JavaScript `in` operator, for the
object and array values that reach it: objects test their key set, arrays
their canonical indices and the `length` property. -/
def jsHasKey : Json → String → Bool
  | .obj kvs, key => (kvs.lookup key).isSome
  | .arr xs, key =>
      ((List.range xs.length).map toString).contains key || key = "length"
  | _, _ => false

/-- Property access `actual[key]`, matching `jsHasKey` (JavaScript property
lookup; `null` stands for the unreachable `undefined` case). -/
def jsGetKey : Json → String → Json
  | .obj kvs, key => (kvs.lookup key).getD .null
  | .arr xs, key =>
      match (List.range xs.length).find? (fun i => toString i = key) with
      | some i => (xs.toList.get? i).getD .null
      | none => if key = "length" then .num xs.length else .null
  | _, _ => .null

/-- Append one mismatch (the TypeScript `result.mismatches.push`). -/
def ComparisonResult.pushMismatch (res : ComparisonResult) (m : Mismatch) :
    ComparisonResult :=
  { res with mismatches := res.mismatches ++ [m] }

/-- Append one missing-field entry. -/
def ComparisonResult.pushMissing (res : ComparisonResult) (m : MissingField) :
    ComparisonResult :=
  { res with missing := res.missing ++ [m] }

/-- Append one extra-field entry. -/
def ComparisonResult.pushExtra (res : ComparisonResult) (e : ExtraField) :
    ComparisonResult :=
  { res with extra := res.extra ++ [e] }

/-- Append one warning. -/
def ComparisonResult.pushWarning (res : ComparisonResult) (w : OrderWarning) :
    ComparisonResult :=
  { res with warnings := res.warnings ++ [w] }

/-- The fresh result record built at the top of `Comparator.compare`. -/
def initResult : ComparisonResult :=
  { passed := true, mismatches := [], missing := [], extra := [], warnings := [] }

/-- The comparator's tolerance test `|a − b| ≤ t` on JavaScript numbers,
computed on numerators and denominators so that it is kernel-evaluable;
`ratAbsSubLe_iff` below proves it equal to the textbook formulation. -/
def ratAbsSubLe (a b t : ℚ) : Bool :=
  decide ((((a.num * b.den - b.num * a.den).natAbs : ℤ) * t.den) ≤
    t.num * (a.den * b.den))

/-- The integer cross-multiplication test `ratAbsSubLe` decides exactly
the comparison `|a − b| ≤ t` of rational numbers. -/
theorem ratAbsSubLe_iff (a b t : ℚ) : ratAbsSubLe a b t = true ↔ |a - b| ≤ t := by
  unfold ratAbsSubLe
  rw [decide_eq_true_eq]
  have had : (0:ℚ) < (a.den : ℚ) := by exact_mod_cast a.pos
  have hbd : (0:ℚ) < (b.den : ℚ) := by exact_mod_cast b.pos
  have htd : (0:ℚ) < (t.den : ℚ) := by exact_mod_cast t.pos
  have hP : (0:ℚ) < (a.den : ℚ) * (b.den : ℚ) * (t.den : ℚ) := by positivity
  have h1 := Rat.mul_den_eq_num a
  have h2 := Rat.mul_den_eq_num b
  have h3 := Rat.mul_den_eq_num t
  have key : (((a.num * b.den - b.num * a.den).natAbs : ℤ) : ℚ) * (t.den : ℚ)
      = |a - b| * ((a.den : ℚ) * (b.den : ℚ) * (t.den : ℚ)) := by
    push_cast [Int.cast_natAbs]
    rw [← abs_of_pos (mul_pos had hbd), ← mul_assoc, ← abs_mul]
    congr 1
    congr 1
    linear_combination (-(b.den : ℚ)) * h1 + (a.den : ℚ) * h2
  have tkey : ((t.num * (a.den * b.den) : ℤ) : ℚ)
      = t * ((a.den : ℚ) * (b.den : ℚ) * (t.den : ℚ)) := by
    push_cast
    linear_combination (-(a.den : ℚ) * (b.den : ℚ)) * h3
  constructor
  · intro h
    have hq : (((a.num * b.den - b.num * a.den).natAbs : ℤ) : ℚ) * (t.den : ℚ)
        ≤ ((t.num * (a.den * b.den) : ℤ) : ℚ) := by exact_mod_cast h
    rw [key, tkey] at hq
    exact (mul_le_mul_right hP).mp hq
  · intro h
    have hq : (((a.num * b.den - b.num * a.den).natAbs : ℤ) : ℚ) * (t.den : ℚ)
        ≤ ((t.num * (a.den * b.den) : ℤ) : ℚ) := by
      rw [key, tkey]
      exact (mul_le_mul_right hP).mpr h
    exact_mod_cast hq

/-- `Comparator.comparePrimitives` (src/core/comparator.ts:129-186).
With type coercion enabled and differing `typeof`, a number/string pair is
first compared numerically (when the string converts to a number) under the
tolerance; otherwise the `String()` coercions are compared, a match ending
the comparison.  Then equal-typed numbers are compared under the tolerance,
and finally strict equality decides a `value` mismatch. -/
def Comparator.comparePrimitives (gt actual : Json) (path : String)
    (rules : ComparisonRules) (res : ComparisonResult) : ComparisonResult :=
  if rules.typeCoercion ∧ jsTypeOf gt ≠ jsTypeOf actual then
    match jsNumPair gt actual with
    | some (g, a) =>
        if ratAbsSubLe g a rules.numericTolerance then res
        else res.pushMismatch ⟨path, gt, actual, .numeric⟩
    | none =>
        if jsToString gt = jsToString actual then res
        else afterCoercion gt actual path rules res
  else afterCoercion gt actual path rules res
where
  /-- The number/string coercion guard of lines 139-158: both sides convert
  to (non-`NaN`) numbers exactly when the pair is number/string or
  string/number with a numeric-looking string. -/
  jsNumPair : Json → Json → Option (ℚ × ℚ)
    | .num g, .str s => (strToNum s).map (fun a => (g, a))
    | .str s, .num a => (strToNum s).map (fun g => (g, a))
    | _, _ => none
  /-- Lines 163-186: the numeric-tolerance check for number pairs followed
  by the direct strict comparison. -/
  afterCoercion (gt actual : Json) (path : String) (rules : ComparisonRules)
      (res : ComparisonResult) : ComparisonResult :=
    match gt, actual with
    | .num g, .num a =>
        if ratAbsSubLe g a rules.numericTolerance then res
        else res.pushMismatch ⟨path, gt, actual, .numeric⟩
    | g, a => if g ≠ a then res.pushMismatch ⟨path, g, a, .value⟩ else res

/-- Trailing `extra` pushes of the positional array loop, for indices past
the end of the ground-truth array (`i >= gt.length` branch). -/
def pushExtrasFrom : JsonList → Nat → String → ComparisonResult → ComparisonResult
  | .nil, _, _, res => res
  | .cons a tl, i, path, res =>
      pushExtrasFrom tl (i + 1) path (res.pushExtra ⟨itemPath path i, a⟩)

/-- Trailing `missing` pushes of the positional array loop, for indices past
the end of the actual array (`i >= actual.length` branch). -/
def pushMissingFrom : JsonList → Nat → String → ComparisonResult → ComparisonResult
  | .nil, _, _, res => res
  | .cons g tl, i, path, res =>
      pushMissingFrom tl (i + 1) path (res.pushMissing ⟨itemPath path i, g⟩)

/-- The unordered branch of `Comparator.compareArrays`
(src/core/comparator.ts:222-255): per-item membership tests against the
`Set` of the other side's `String()` coercions (the for-of push loops are
rendered as filters), then the equal-length order warning keyed on
`JSON.stringify` inequality. -/
def Comparator.unorderedArrays (gt actual : JsonList) (path : String)
    (res : ComparisonResult) : ComparisonResult :=
  let gtSet := gt.toList.map jsToString
  let actualSet := actual.toList.map jsToString
  let newMissing : List MissingField :=
    (gt.toList.filter (fun item => !actualSet.contains (jsToString item))).map
      (fun item => ⟨path ++ "[]", item⟩)
  let newExtra : List ExtraField :=
    (actual.toList.filter (fun item => !gtSet.contains (jsToString item))).map
      (fun item => ⟨path ++ "[]", item⟩)
  let res1 := { res with missing := res.missing ++ newMissing }
  let res2 := { res1 with extra := res1.extra ++ newExtra }
  if gt.length = actual.length ∧ jsonStringify (.arr gt) ≠ jsonStringify (.arr actual)
  then res2.pushWarning ⟨path, "Array order differs (unordered comparison enabled)"⟩
  else res2

mutual
/-- `Comparator.compareObject` (src/core/comparator.ts:44-127): the
null checks, the array dispatch (positional when the first ground-truth
element has `typeof` object, otherwise the strategy dispatch of
`compareArrays`, inlined here), the object-key loop, and the primitive
fallthrough. -/
def Comparator.compareObject (gt actual : Json) (path : String)
    (ign : List String) (rules : ComparisonRules) (res : ComparisonResult) :
    ComparisonResult :=
  match gt, actual with
  | .null, .null => res
  | .null, a =>
      res.pushMismatch ⟨(if path = "" then "root" else path), .null, a, .value⟩
  | g, .null =>
      res.pushMismatch ⟨(if path = "" then "root" else path), g, .null, .value⟩
  | .arr gxs, .arr axs =>
      if gxs.length = 0 ∧ axs.length = 0 then res
      else if (match gxs.head? with
               | some h => jsTypeOf h == "object"
               | none => false) then
        Comparator.positionalLoop gxs axs 0 path ign rules res
      else
        match rules.arrayStrategy with
        | .ordered => Comparator.positionalLoop gxs axs 0 path ign rules res
        | .unordered => Comparator.unorderedArrays gxs axs path res
  | .arr gxs, a => res.pushMismatch ⟨path, .arr gxs, a, .type⟩
  | .obj gkvs, a =>
      if jsTypeOf a ≠ "object" then res.pushMismatch ⟨path, .obj gkvs, a, .type⟩
      else Comparator.compareObjEntries gkvs a path ign rules res
  | g, a => Comparator.comparePrimitives g a path rules res

/-- The index-by-index array loop shared between the ordered branch of
`Comparator.compareArrays` (lines 196-221) and `Comparator.compareObjectArrays`
(lines 258-293), which are textually identical in the source: compare at
each common index, then report the overhang of the longer array as extra
(actual longer) or missing (ground truth longer) entries. -/
def Comparator.positionalLoop (gt actual : JsonList) (i : Nat) (path : String)
    (ign : List String) (rules : ComparisonRules) (res : ComparisonResult) :
    ComparisonResult :=
  match gt, actual with
  | .nil, .nil => res
  | .nil, rest => pushExtrasFrom rest i path res
  | .cons g tl, .nil => pushMissingFrom (.cons g tl) i path res
  | .cons g gtl, .cons a atl =>
      Comparator.positionalLoop gtl atl (i + 1) path ign rules
        (Comparator.compareObject g a (itemPath path i) ign rules res)

/-- The key loop of `Comparator.compareObject`'s object branch (lines
101-121): for each ground-truth key not ignored by full dotted path, report
missing or recurse. -/
def Comparator.compareObjEntries (kvs : JsonObj) (actual : Json) (path : String)
    (ign : List String) (rules : ComparisonRules) (res : ComparisonResult) :
    ComparisonResult :=
  match kvs with
  | .nil => res
  | .cons k v tl =>
      let fieldPath := joinPath path k
      let res1 :=
        if ign.contains fieldPath then res
        else if !jsHasKey actual k then res.pushMissing ⟨fieldPath, v⟩
        else Comparator.compareObject v (jsGetKey actual k) fieldPath ign rules res
      Comparator.compareObjEntries tl actual path ign rules res1
end

/-- `Comparator.compareArrays` (src/core/comparator.ts:188-256): positional
comparison under the ordered strategy, multiset-style membership comparison
with string coercion plus the order warning under the unordered strategy. -/
def Comparator.compareArrays (gt actual : JsonList) (path : String)
    (ign : List String) (rules : ComparisonRules) (res : ComparisonResult) :
    ComparisonResult :=
  match rules.arrayStrategy with
  | .ordered => Comparator.positionalLoop gt actual 0 path ign rules res
  | .unordered => Comparator.unorderedArrays gt actual path res

/-- `Comparator.compareObjectArrays` (src/core/comparator.ts:258-293):
object arrays are always compared positionally by index. -/
def Comparator.compareObjectArrays (gt actual : JsonList) (path : String)
    (ign : List String) (rules : ComparisonRules) (res : ComparisonResult) :
    ComparisonResult :=
  Comparator.positionalLoop gt actual 0 path ign rules res

mutual
/-- `Comparator.detectExtraFields` (src/core/comparator.ts:295-335): the
mirrored traversal over `actual`, keyed by the ground-truth shape, that
reports keys present in `actual` but absent from ground truth.  It returns
early unless both sides are non-null non-array objects. -/
def Comparator.detectExtraFields (gt actual : Json) (path : String)
    (ign : List String) (res : ComparisonResult) : ComparisonResult :=
  if jsTypeOf actual ≠ "object" ∨ actual = .null then res
  else if jsTypeOf gt ≠ "object" ∨ gt = .null then res
  else
    match gt, actual with
    | .arr _, .arr _ => res
    | .arr _, _ => res
    | _, .arr _ => res
    | _, .obj akvs => Comparator.detectEntries gt akvs path ign res
    | _, _ => res

/-- The key loop of `detectExtraFields` (lines 315-334): each key of
`actual` is skipped when its full dotted path or its bare name is in the
ignore set, reported as extra when absent from ground truth, and recursed
into when both sides are object-typed. -/
def Comparator.detectEntries (gt : Json) (akvs : JsonObj) (path : String)
    (ign : List String) (res : ComparisonResult) : ComparisonResult :=
  match akvs with
  | .nil => res
  | .cons k v tl =>
      let fieldPath := joinPath path k
      let res1 :=
        if ign.contains fieldPath ∨ ign.contains k then res
        else if !jsHasKey gt k then res.pushExtra ⟨fieldPath, v⟩
        else if jsTypeOf v = "object" ∧ jsTypeOf (jsGetKey gt k) = "object" then
          Comparator.detectExtraFields (jsGetKey gt k) v fieldPath ign res
        else res
      Comparator.detectEntries gt tl path ign res1
end

/-- `Comparator.compare` (src/core/comparator.ts:12-42).  The source also
computes `schemaInferrer.infer(groundTruth)` here, whose result the rest of
the method never reads; the `passed` flag demands empty mismatches, empty
missing, and empty extra unless `extraFieldsWarning` is off. -/
def Comparator.compare (groundTruth actual : Json) (rules : ComparisonRules) :
    ComparisonResult :=
  let ignoreSet := rules.ignoreFields
  let res1 := Comparator.compareObject groundTruth actual "" ignoreSet rules initResult
  let res2 := Comparator.detectExtraFields groundTruth actual "" ignoreSet res1
  { res2 with passed :=
      res2.mismatches.isEmpty && res2.missing.isEmpty &&
      (res2.extra.isEmpty || !rules.extraFieldsWarning) }

/-- Scoring configuration (src/types/config.ts `ScoringConfigSchema`):
per-field penalties, each constrained to `[0, 100]` by the schema. -/
structure ScoringConfig where
  missingFieldPenalty : ℚ
  mismatchPenalty : ℚ
  extraFieldPenalty : ℚ
  deriving DecidableEq

/-- The zod defaults of `ScoringConfigSchema`. -/
def defaultScoring : ScoringConfig :=
  { missingFieldPenalty := 10, mismatchPenalty := 5, extraFieldPenalty := 2 }

/-- One entry of `ScoringResult.fieldScores` (src/types/results.ts). -/
structure FieldScore where
  field : String
  score : ℚ
  penalty : ℚ
  reason : String
  deriving DecidableEq

/-- The `breakdown` block of a scoring result (src/types/results.ts).
`matchedFields` is computed by subtraction in JavaScript and can go
negative, hence the integer type. -/
structure Breakdown where
  totalFields : ℤ
  matchedFields : ℤ
  missingFields : ℤ
  mismatchedFields : ℤ
  extraFields : ℤ
  deriving DecidableEq

/-- The scoring result (src/types/results.ts `ScoringResult`). -/
structure ScoringResult where
  overallScore : ℚ
  completenessScore : ℚ
  accuracyScore : ℚ
  extraFieldScore : ℚ
  fieldScores : List FieldScore
  breakdown : Breakdown
  deriving DecidableEq

/-- JavaScript `Math.round`: round half toward positive infinity. -/
def jsRound (q : ℚ) : ℤ := ⌊q + 1 / 2⌋

/-- `Math.round(x * 100) / 100`: round to two decimal places, half up. -/
def round2 (q : ℚ) : ℚ := (jsRound (q * 100) : ℚ) / 100

/-- Insertion into a JavaScript `Set` modelled as an insertion-ordered
duplicate-free list. -/
def setAdd (s : List String) (x : String) : List String :=
  if s.contains x then s else s ++ [x]

/-- `Scorer.extractSchema` (src/core/scorer.ts:93-101): the scoring
universe, a `Set` collecting the paths of all mismatch entries and then of
all missing entries.  Paths appearing only in `extra` are not added. -/
def Scorer.extractSchema (comparison : ComparisonResult) : List String :=
  (comparison.mismatches.map (·.path) ++ comparison.missing.map (·.path)).foldl
    setAdd []

/-- `Scorer.emptyResult` (src/core/scorer.ts:103-118): the sentinel returned
for an empty scoring universe. -/
def Scorer.emptyResult : ScoringResult :=
  { overallScore := 100
    completenessScore := 100
    accuracyScore := 100
    extraFieldScore := 0
    fieldScores := []
    breakdown :=
      { totalFields := 0, matchedFields := 0, missingFields := 0
        mismatchedFields := 0, extraFields := 0 } }

/-- `Scorer.score` (src/core/scorer.ts:9-91).  With an empty universe the
sentinel is returned no matter what `extra` holds; otherwise the four
scores are computed from the universe size and the raw entry counts and
rounded to two decimals (the per-entry `forEach` loops building
`fieldScores` are rendered as a `filterMap` and a `map`). -/
def Scorer.score (comparison : ComparisonResult) (config : ScoringConfig) :
    ScoringResult :=
  let schema := Scorer.extractSchema comparison
  let totalFields := schema.length
  if totalFields = 0 then Scorer.emptyResult
  else
    let matchedFields : ℤ :=
      (totalFields : ℤ) - comparison.missing.length - comparison.mismatches.length
    let fieldScores : List FieldScore :=
      (schema.filterMap fun field =>
        if comparison.missing.any (fun m => m.path = field) then
          some ⟨field, 0, config.missingFieldPenalty, "Field missing in output"⟩
        else if comparison.mismatches.any (fun m => m.path = field) then
          some ⟨field, 50, config.mismatchPenalty, "Field value mismatch"⟩
        else if comparison.extra.any (fun e => e.path = field) then none
        else some ⟨field, 100, 0, "Perfect match"⟩) ++
      comparison.extra.map fun e =>
        ⟨e.path, 75, config.extraFieldPenalty, "Extra field in output"⟩
    let completenessScore : ℚ := ((matchedFields : ℚ) / (totalFields : ℚ)) * 100
    let accuracyScore : ℚ :=
      (((totalFields : ℚ) - (comparison.mismatches.length : ℚ)) / (totalFields : ℚ)) * 100
    let totalPenalty : ℚ :=
      (comparison.missing.length : ℚ) * config.missingFieldPenalty +
      (comparison.mismatches.length : ℚ) * config.mismatchPenalty +
      (comparison.extra.length : ℚ) * config.extraFieldPenalty
    let overallScore : ℚ := max 0 (100 - (totalPenalty / (totalFields : ℚ)) * 10)
    let extraFieldScore : ℚ :=
      ((comparison.extra.length : ℚ) / (max totalFields 1 : ℚ)) * 100
    { overallScore := round2 overallScore
      completenessScore := round2 completenessScore
      accuracyScore := round2 accuracyScore
      extraFieldScore := round2 extraFieldScore
      fieldScores := fieldScores
      breakdown :=
        { totalFields := (totalFields : ℤ)
          matchedFields := matchedFields
          missingFields := (comparison.missing.length : ℤ)
          mismatchedFields := (comparison.mismatches.length : ℤ)
          extraFields := (comparison.extra.length : ℤ) } }

/-- Primitive type names of the schema inferrer
(src/core/schema-inference.ts `SchemaField.type`). -/
inductive FieldType where
  | string : FieldType
  | number : FieldType
  | boolean : FieldType
  | array : FieldType
  | object : FieldType
  | nullType : FieldType
  deriving DecidableEq

/-- `SchemaInferrer.getType` (src/core/schema-inference.ts:441-450); the
source's `'null'` string is rendered as `FieldType.nullType`. -/
def SchemaInferrer.getType : Json → FieldType
  | .null => .nullType
  | .arr _ => .array
  | .str _ => .string
  | .num _ => .number
  | .bool _ => .boolean
  | .obj _ => .object

/-- One inferred schema field (src/core/schema-inference.ts `SchemaField`);
`isRequired` is always set to `true` by the inferrer and is omitted. -/
structure SchemaField where
  path : String
  type : FieldType
  isArray : Bool
  sampleValues : List Json
  deriving DecidableEq

/-- `Map.set` on an insertion-ordered association list: an existing key is
updated in place, a new key is appended. -/
def mapSet (fields : List (String × SchemaField)) (key : String)
    (v : SchemaField) : List (String × SchemaField) :=
  if fields.any (fun p => p.1 = key) then
    fields.map (fun p => if p.1 = key then (key, v) else p)
  else fields ++ [(key, v)]

/-- JavaScript `value[0] || ''`: the first element when it is truthy, the
empty string otherwise (also when the array is empty). -/
def jsHeadOrEmptyStr (xs : JsonList) : Json :=
  match xs.head? with
  | some v => if jsTruthy v then v else .str ""
  | none => .str ""

mutual
/-- `SchemaInferrer.traverseObject` (src/core/schema-inference.ts:365-439),
for a value in array/root position: null contributes nothing; a non-empty
array whose first element is a non-null object recurses into that element
under the `[]`-suffixed path, a non-empty array otherwise records one entry
at the array's own path typed from the first element; an empty array in
this position contributes nothing; an object walks its entries; primitives
in this position contribute nothing. -/
def SchemaInferrer.traverseObject (obj : Json) (basePath : String)
    (fields : List (String × SchemaField)) : List (String × SchemaField) :=
  match obj with
  | .null => fields
  | .arr xs =>
      match xs with
      | .nil => fields
      | .cons firstItem _ =>
          if jsTypeOf firstItem == "object" ∧ firstItem ≠ .null then
            SchemaInferrer.traverseObject firstItem (basePath ++ "[]") fields
          else
            mapSet fields basePath
              ⟨basePath, SchemaInferrer.getType firstItem, true, xs.take3⟩
  | .obj kvs => SchemaInferrer.traverseEntries kvs basePath fields
  | _ => fields

/-- The `Object.entries` loop of `traverseObject` (lines 398-438): null
values record a null-typed entry; array values either recurse into a
non-null-object first element or record an entry typed from
`value[0] || ''`; object values recurse; primitive values record an entry
typed from the value. -/
def SchemaInferrer.traverseEntries (kvs : JsonObj) (basePath : String)
    (fields : List (String × SchemaField)) : List (String × SchemaField) :=
  match kvs with
  | .nil => fields
  | .cons key value tl =>
      let fieldPath := joinPath basePath key
      let fields1 :=
        match value with
        | .null => mapSet fields fieldPath ⟨fieldPath, .nullType, false, [.null]⟩
        | .arr xs =>
            match xs with
            | .cons firstItem _ =>
                if jsTypeOf firstItem == "object" ∧ firstItem ≠ .null then
                  SchemaInferrer.traverseObject firstItem (fieldPath ++ "[]") fields
                else
                  mapSet fields fieldPath
                    ⟨fieldPath, SchemaInferrer.getType (jsHeadOrEmptyStr xs), true,
                      xs.take3⟩
            | .nil =>
                mapSet fields fieldPath
                  ⟨fieldPath, SchemaInferrer.getType (jsHeadOrEmptyStr xs), true,
                    xs.take3⟩
        | .obj okvs => SchemaInferrer.traverseObject (.obj okvs) fieldPath fields
        | v => mapSet fields fieldPath ⟨fieldPath, SchemaInferrer.getType v, false, [v]⟩
      SchemaInferrer.traverseEntries tl basePath fields1
end

/-- Per-case status (src/types/results.ts `TestCaseResult.status`). -/
inductive CaseStatus where
  | passed : CaseStatus
  | failed : CaseStatus
  | warning : CaseStatus
  deriving DecidableEq

/-- The `error` block of a failed case result (src/types/results.ts). -/
structure CaseError where
  message : String
  code : String
  deriving DecidableEq

/-- One case result (src/types/results.ts `TestCaseResult`), restricted to
the fields the orchestrator computes deterministically (timing fields and
wall-clock timestamps are outside the embedding). -/
structure TestCaseResult where
  caseId : String
  status : CaseStatus
  comparison : ComparisonResult
  scoring : ScoringResult
  error : Option CaseError
  deriving DecidableEq

/-- The all-zero scoring block built inline by the orchestrator's catch
branches (src/core/orchestrator.ts:588-601 and 691-704). -/
def zeroScoring : ScoringResult :=
  { overallScore := 0
    completenessScore := 0
    accuracyScore := 0
    extraFieldScore := 0
    fieldScores := []
    breakdown :=
      { totalFields := 0, matchedFields := 0, missingFields := 0
        mismatchedFields := 0, extraFields := 0 } }

/-- The failed case result built by `TestOrchestrator.runCase`'s catch
branch (src/core/orchestrator.ts:677-711): status failed, empty comparison
with `passed := false`, zero scores, and the thrown error's message under
code `EXECUTION_ERROR`. -/
def failedCaseResult (caseId msg : String) : TestCaseResult :=
  { caseId := caseId
    status := .failed
    comparison :=
      { passed := false, mismatches := [], missing := [], extra := []
        warnings := [] }
    scoring := zeroScoring
    error := some ⟨msg, "EXECUTION_ERROR"⟩ }

/-- The three external interactions of one test case, pre-resolved: the
input fetch, the ground-truth fetch and the service invocation each either
produce a JSON value or raise (modelled as the thrown error message).  This
stands for the `DataFetcher` collaborator of src/core/data-fetcher.ts. -/
structure CaseFetches where
  input : Except String Json
  groundTruth : Except String Json
  service : Except String Json

/-- `TestOrchestrator.runCase` (src/core/orchestrator.ts:622-712), with the
already-merged comparison rules and scoring config (the shallow
defaults-then-case spread of lines 631-639): the input fetch, ground-truth
fetch and service call run in order, the first raise being caught and
converted to `failedCaseResult`; on success the comparator and scorer run
and the status is failed on a non-passed diff, else warning when warnings
exist, else passed. -/
def TestOrchestrator.runCase (caseId : String) (rules : ComparisonRules)
    (scfg : ScoringConfig) (fx : CaseFetches) : TestCaseResult :=
  match fx.input with
  | .error e => failedCaseResult caseId e
  | .ok _ =>
    match fx.groundTruth with
    | .error e => failedCaseResult caseId e
    | .ok groundTruth =>
      match fx.service with
      | .error e => failedCaseResult caseId e
      | .ok output =>
        let comparison := Comparator.compare groundTruth output rules
        let scoring := Scorer.score comparison scfg
        let status : CaseStatus :=
          if !comparison.passed then .failed
          else if comparison.warnings.length > 0 then .warning
          else .passed
        { caseId := caseId, status := status, comparison := comparison
          scoring := scoring, error := none }

/-- `TestOrchestrator.runCasesWithConcurrency` (src/core/orchestrator.ts:
549-620), sequentialized: the queue of cases is drained with each case
processed to completion exactly once, each contributing exactly one result
(the bounded worker pool only affects completion order and timing, which
are outside the embedding; `runCase` never throws, so the outer catch that
would synthesize a failed result is unreachable). -/
def TestOrchestrator.runCases (cases : List (String × CaseFetches))
    (rules : ComparisonRules) (scfg : ScoringConfig) : List TestCaseResult :=
  cases.map (fun c => TestOrchestrator.runCase c.1 rules scfg c.2)

/-- Rounding to two decimals is monotone. -/
theorem round2_mono {a b : ℚ} (h : a ≤ b) : round2 a ≤ round2 b := by
  unfold round2 jsRound
  have h1 : (⌊a * 100 + 1 / 2⌋ : ℤ) ≤ ⌊b * 100 + 1 / 2⌋ := by
    apply Int.floor_le_floor
    nlinarith
  have hc : ((⌊a * 100 + 1 / 2⌋ : ℤ) : ℚ) ≤ ((⌊b * 100 + 1 / 2⌋ : ℤ) : ℚ) := by
    exact_mod_cast h1
  linarith

/-- Rounding to two decimals preserves non-negativity. -/
theorem round2_nonneg {a : ℚ} (h : 0 ≤ a) : 0 ≤ round2 a := by
  have h0 : round2 0 = 0 := by
    unfold round2 jsRound
    have hf : (⌊(0:ℚ) * 100 + 1 / 2⌋ : ℤ) = 0 := by
      rw [Int.floor_eq_iff]
      norm_num
    rw [hf]
    norm_num
  calc (0:ℚ) = round2 0 := h0.symm
    _ ≤ round2 a := round2_mono h

/-- Rounding to two decimals preserves the upper bound 100. -/
theorem round2_le_100 {a : ℚ} (h : a ≤ 100) : round2 a ≤ 100 := by
  have h0 : round2 100 = 100 := by
    unfold round2 jsRound
    have hf : (⌊(100:ℚ) * 100 + 1 / 2⌋ : ℤ) = 10000 := by
      rw [Int.floor_eq_iff]
      norm_num
    rw [hf]
    norm_num
  calc round2 a ≤ round2 100 := round2_mono h
    _ = 100 := h0

/-- C3: whenever the scoring universe (the distinct paths of mismatches and
missing entries) is empty, `Scorer.score` returns exactly the sentinel —
overall, completeness and accuracy 100, extra-field score 0, empty field
scores and an all-zero breakdown — for every scoring config and regardless
of how many extra entries the comparison result holds. -/
theorem c3_empty_universe_sentinel (comparison : ComparisonResult)
    (config : ScoringConfig) (h : Scorer.extractSchema comparison = []) :
    Scorer.score comparison config = Scorer.emptyResult := by
  unfold Scorer.score
  rw [h]
  norm_num

/-- Witness for C3, on a comparison result with a non-empty `extra` list. -/
theorem c3_witness :
    Scorer.extractSchema ⟨true, [], [], [⟨"e", Json.num 1⟩], []⟩ = [] ∧
    Scorer.score ⟨true, [], [], [⟨"e", Json.num 1⟩], []⟩ defaultScoring
      = Scorer.emptyResult :=
  ⟨by decide, c3_empty_universe_sentinel _ defaultScoring (by decide)⟩

/-- C4: with a non-empty scoring universe of size `total` and raw counts
`missingN`, `mismatchN`, `extraN`, the four scores are exactly the claimed
formulas — completeness `(total − missingN − mismatchN)/total × 100`,
accuracy `(total − mismatchN)/total × 100`, overall
`max(0, 100 − (totalPenalty/total) × 10)` and extra-rate
`extraN/total × 100` — each rounded to two decimals half-up (`round2`,
the `Math.round(x*100)/100` model). -/
theorem c4_score_formulas (comparison : ComparisonResult) (config : ScoringConfig)
    (h : Scorer.extractSchema comparison ≠ []) :
    ((Scorer.score comparison config).completenessScore =
      round2 (((((Scorer.extractSchema comparison).length : ℚ) -
        (comparison.missing.length : ℚ) - (comparison.mismatches.length : ℚ)) /
        ((Scorer.extractSchema comparison).length : ℚ)) * 100)) ∧
    ((Scorer.score comparison config).accuracyScore =
      round2 (((((Scorer.extractSchema comparison).length : ℚ) -
        (comparison.mismatches.length : ℚ)) /
        ((Scorer.extractSchema comparison).length : ℚ)) * 100)) ∧
    ((Scorer.score comparison config).overallScore =
      round2 (max 0 (100 -
        (((comparison.missing.length : ℚ) * config.missingFieldPenalty +
          (comparison.mismatches.length : ℚ) * config.mismatchPenalty +
          (comparison.extra.length : ℚ) * config.extraFieldPenalty) /
          ((Scorer.extractSchema comparison).length : ℚ)) * 10))) ∧
    ((Scorer.score comparison config).extraFieldScore =
      round2 (((comparison.extra.length : ℚ) /
        ((Scorer.extractSchema comparison).length : ℚ)) * 100)) := by
  have htot : (Scorer.extractSchema comparison).length ≠ 0 := by
    simpa [List.length_eq_zero] using h
  have hge : 1 ≤ (Scorer.extractSchema comparison).length := Nat.one_le_iff_ne_zero.mpr htot
  unfold Scorer.score
  rw [if_neg htot]
  refine ⟨?_, ?_, ?_, ?_⟩
  · push_cast
    ring_nf
  · rfl
  · rfl
  · have hge2 : (1 : ℚ) ≤ ((Scorer.extractSchema comparison).length : ℚ) := by
      exact_mod_cast hge
    simp only [max_eq_left hge2]

/-- A one-mismatch comparison result, giving a singleton scoring universe. -/
def exampleMismatchOnly : ComparisonResult :=
  ⟨false, [⟨"a", .num 1, .num 2, .numeric⟩], [], [], []⟩

/-- Witness for C4 at a singleton universe. -/
theorem c4_witness :
    Scorer.extractSchema exampleMismatchOnly ≠ [] ∧
    (Scorer.score exampleMismatchOnly defaultScoring).completenessScore =
      round2 (((((Scorer.extractSchema exampleMismatchOnly).length : ℚ) -
        (exampleMismatchOnly.missing.length : ℚ) -
        (exampleMismatchOnly.mismatches.length : ℚ)) /
        ((Scorer.extractSchema exampleMismatchOnly).length : ℚ)) * 100) :=
  ⟨by decide, (c4_score_formulas exampleMismatchOnly defaultScoring (by decide)).1⟩

/-- Counterexample to C5 as stated: the four scores are not all confined to
[0,100].  At ground truth with one field and an actual output with two extra
fields, the extra-field score is 200; at a two-element unordered array fully
replaced, completeness is −100; and a comparison result carrying two
mismatches at the same path drives accuracy to −100. -/
theorem c5_counterexample :
    (100 < (Scorer.score (Comparator.compare
        (.obj (.cons "a" (.num 1) .nil))
        (.obj (.cons "a" (.num 2) (.cons "b" (.num 1) (.cons "c" (.num 1) .nil))))
        defaultRules) defaultScoring).extraFieldScore) ∧
    ((Scorer.score (Comparator.compare
        (.obj (.cons "arr" (.arr (.cons (.num 1) (.cons (.num 2) .nil))) .nil))
        (.obj (.cons "arr" (.arr (.cons (.num 3) (.cons (.num 4) .nil))) .nil))
        defaultRules) defaultScoring).completenessScore < 0) ∧
    ((Scorer.score ⟨false, [⟨"a", .num 1, .num 2, .value⟩, ⟨"a", .num 1, .num 3, .value⟩],
        [], [], []⟩ defaultScoring).accuracyScore < 0) := by
  have h1 : Comparator.compare (.obj (.cons "a" (.num 1) .nil))
      (.obj (.cons "a" (.num 2) (.cons "b" (.num 1) (.cons "c" (.num 1) .nil))))
      defaultRules =
      ⟨false, [⟨"a", .num 1, .num 2, .numeric⟩], [],
        [⟨"b", .num 1⟩, ⟨"c", .num 1⟩], []⟩ := by decide
  have h2 : Comparator.compare
      (.obj (.cons "arr" (.arr (.cons (.num 1) (.cons (.num 2) .nil))) .nil))
      (.obj (.cons "arr" (.arr (.cons (.num 3) (.cons (.num 4) .nil))) .nil))
      defaultRules =
      ⟨false, [], [⟨"arr[]", .num 1⟩, ⟨"arr[]", .num 2⟩],
        [⟨"arr[]", .num 3⟩, ⟨"arr[]", .num 4⟩],
        [⟨"arr", "Array order differs (unordered comparison enabled)"⟩]⟩ := by decide
  rw [h1, h2]
  have e1 : Scorer.extractSchema ⟨false, [⟨"a", .num 1, .num 2, .numeric⟩], [],
      [⟨"b", .num 1⟩, ⟨"c", .num 1⟩], []⟩ = ["a"] := by decide
  have e2 : Scorer.extractSchema ⟨false, [], [⟨"arr[]", .num 1⟩, ⟨"arr[]", .num 2⟩],
      [⟨"arr[]", .num 3⟩, ⟨"arr[]", .num 4⟩],
      [⟨"arr", "Array order differs (unordered comparison enabled)"⟩]⟩ = ["arr[]"] := by decide
  have e3 : Scorer.extractSchema ⟨false, [⟨"a", .num 1, .num 2, .value⟩,
      ⟨"a", .num 1, .num 3, .value⟩], [], [], []⟩ = ["a"] := by decide
  unfold Scorer.score
  rw [e1, e2, e3]
  norm_num [round2, jsRound]

/-- C5 amended: for every comparison result and every scoring config with
non-negative penalties (the range zod enforces), the overall score lies in
[0,100] and completeness and accuracy never exceed 100 while the
extra-field score is never negative; the remaining bounds of the claim
(lower bounds of completeness and accuracy, upper bound of the extra-field
score) do not hold, per `c5_counterexample`. -/
theorem c5_score_bounds (comparison : ComparisonResult) (config : ScoringConfig)
    (h1 : 0 ≤ config.missingFieldPenalty) (h2 : 0 ≤ config.mismatchPenalty)
    (h3 : 0 ≤ config.extraFieldPenalty) :
    (0 ≤ (Scorer.score comparison config).overallScore ∧
      (Scorer.score comparison config).overallScore ≤ 100) ∧
    (Scorer.score comparison config).completenessScore ≤ 100 ∧
    (Scorer.score comparison config).accuracyScore ≤ 100 ∧
    0 ≤ (Scorer.score comparison config).extraFieldScore := by
  unfold Scorer.score
  by_cases htot : (Scorer.extractSchema comparison).length = 0
  · rw [if_pos htot]
    unfold Scorer.emptyResult
    norm_num
  · rw [if_neg htot]
    have hge : 1 ≤ (Scorer.extractSchema comparison).length :=
      Nat.one_le_iff_ne_zero.mpr htot
    have hL : (0:ℚ) < ((Scorer.extractSchema comparison).length : ℚ) := by
      exact_mod_cast Nat.pos_of_ne_zero htot
    refine ⟨⟨?_, ?_⟩, ?_, ?_, ?_⟩
    · exact round2_nonneg (le_max_left 0 _)
    · apply round2_le_100
      apply max_le (by norm_num)
      have hq : 0 ≤ ((comparison.missing.length : ℚ) * config.missingFieldPenalty +
          (comparison.mismatches.length : ℚ) * config.mismatchPenalty +
          (comparison.extra.length : ℚ) * config.extraFieldPenalty) /
          ((Scorer.extractSchema comparison).length : ℚ) * 10 := by positivity
      linarith
    · apply round2_le_100
      push_cast
      have hm : ((Scorer.extractSchema comparison).length : ℚ) -
          (comparison.missing.length : ℚ) - (comparison.mismatches.length : ℚ)
          ≤ ((Scorer.extractSchema comparison).length : ℚ) := by
        have hx : (0:ℚ) ≤ (comparison.missing.length : ℚ) := by positivity
        have hy : (0:ℚ) ≤ (comparison.mismatches.length : ℚ) := by positivity
        linarith
      have hdiv : (((Scorer.extractSchema comparison).length : ℚ) -
          (comparison.missing.length : ℚ) - (comparison.mismatches.length : ℚ)) /
          ((Scorer.extractSchema comparison).length : ℚ) ≤ 1 :=
        (div_le_one hL).mpr hm
      nlinarith
    · apply round2_le_100
      have hm : (((Scorer.extractSchema comparison).length : ℚ) -
          (comparison.mismatches.length : ℚ)) ≤
          ((Scorer.extractSchema comparison).length : ℚ) := by
        have hy : (0:ℚ) ≤ (comparison.mismatches.length : ℚ) := by positivity
        linarith
      have hdiv : (((Scorer.extractSchema comparison).length : ℚ) -
          (comparison.mismatches.length : ℚ)) /
          ((Scorer.extractSchema comparison).length : ℚ) ≤ 1 :=
        (div_le_one hL).mpr hm
      nlinarith
    · apply round2_nonneg
      positivity

/-- Witness for the amended C5, at the empty comparison result under the
default scoring config. -/
theorem c5_witness :
    ((0:ℚ) ≤ defaultScoring.missingFieldPenalty ∧
      (0:ℚ) ≤ defaultScoring.mismatchPenalty ∧
      (0:ℚ) ≤ defaultScoring.extraFieldPenalty) ∧
    (0 ≤ (Scorer.score initResult defaultScoring).overallScore ∧
      (Scorer.score initResult defaultScoring).overallScore ≤ 100) :=
  ⟨⟨by decide, by decide, by decide⟩,
    (c5_score_bounds initResult defaultScoring (by decide) (by decide) (by decide)).1⟩

/-- C1: evaluation of the code at the failing input.  Under the default
rules — extra-fields-warning policy enabled, `extraFieldsWarning = true` —
an actual output with one extra field and no mismatches or missing fields
yields `passed = false`.  The claimed invariant says `passed` is false only
when mismatches or missing are non-empty or extras exist with the policy
DISABLED, so it requires `passed = true` here: line 39 of
src/core/comparator.ts tests `!rules.extraFieldsWarning` where the
flag's documented meaning (extras are warnings, not failures, when the
flag is on) requires `rules.extraFieldsWarning`. -/
theorem c1_passed_flag_inverted :
    defaultRules.extraFieldsWarning = true ∧
    (Comparator.compare (.obj (.cons "x" (.num 1) .nil))
      (.obj (.cons "x" (.num 1) (.cons "y" (.num 2) .nil)))
      defaultRules).mismatches = [] ∧
    (Comparator.compare (.obj (.cons "x" (.num 1) .nil))
      (.obj (.cons "x" (.num 1) (.cons "y" (.num 2) .nil)))
      defaultRules).missing = [] ∧
    (Comparator.compare (.obj (.cons "x" (.num 1) .nil))
      (.obj (.cons "x" (.num 1) (.cons "y" (.num 2) .nil)))
      defaultRules).extra = [⟨"y", .num 2⟩] ∧
    (Comparator.compare (.obj (.cons "x" (.num 1) .nil))
      (.obj (.cons "x" (.num 1) (.cons "y" (.num 2) .nil)))
      defaultRules).passed = false := by
  decide

/-- Shape test for the number/string coercion branch of
`comparePrimitives`: one side a number, the other a string. -/
def isNumStrPair : Json → Json → Bool
  | .num _, .str _ => true
  | .str _, .num _ => true
  | _, _ => false

/-- Counterexample to C6 as stated: at the differing-type primitive pair
`true` (boolean) versus `"true"` (string) with type coercion enabled (the
default), the claim's "exact value equality, producing a mismatch of kind
value on inequality" demands a mismatch — the values are unequal — yet the
code coerces both sides with `String()` and reports a match. -/
theorem c6_counterexample :
    defaultRules.typeCoercion = true ∧
    jsTypeOf (Json.bool true) ≠ jsTypeOf (Json.str "true") ∧
    Json.bool true ≠ Json.str "true" ∧
    Comparator.comparePrimitives (.bool true) (.str "true") "p" defaultRules
      initResult = initResult := by
  decide

/-- C6 amended: with type coercion enabled, a number/numeric-looking-string
pair (in either order) is compared numerically under the tolerance, a
non-numeric pairing of number and string and every other differing-type
primitive pair falls back to `String()`-coercion equality — equal coerced
strings match, everything else is a mismatch of kind value. -/
theorem c6_coercion_semantics :
    (∀ (q : ℚ) (s : String) (path : String) (rules : ComparisonRules)
        (res : ComparisonResult), rules.typeCoercion = true →
      Comparator.comparePrimitives (.num q) (.str s) path rules res =
        match strToNum s with
        | some a =>
            if |q - a| ≤ rules.numericTolerance then res
            else res.pushMismatch ⟨path, .num q, .str s, .numeric⟩
        | none =>
            if jsToString (.num q) = jsToString (.str s) then res
            else res.pushMismatch ⟨path, .num q, .str s, .value⟩) ∧
    (∀ (s : String) (q : ℚ) (path : String) (rules : ComparisonRules)
        (res : ComparisonResult), rules.typeCoercion = true →
      Comparator.comparePrimitives (.str s) (.num q) path rules res =
        match strToNum s with
        | some g =>
            if |g - q| ≤ rules.numericTolerance then res
            else res.pushMismatch ⟨path, .str s, .num q, .numeric⟩
        | none =>
            if jsToString (.str s) = jsToString (.num q) then res
            else res.pushMismatch ⟨path, .str s, .num q, .value⟩) ∧
    (∀ (gt actual : Json) (path : String) (rules : ComparisonRules)
        (res : ComparisonResult), rules.typeCoercion = true →
      gt.isPrim = true → actual.isPrim = true →
      jsTypeOf gt ≠ jsTypeOf actual → isNumStrPair gt actual = false →
      Comparator.comparePrimitives gt actual path rules res =
        if jsToString gt = jsToString actual then res
        else res.pushMismatch ⟨path, gt, actual, .value⟩) := by
  refine ⟨fun q s path rules res hc => ?_, fun s q path rules res hc => ?_,
    fun gt actual path rules res hc hg ha ht hns => ?_⟩
  · unfold Comparator.comparePrimitives
    rw [if_pos (by simp [hc, jsTypeOf])]
    have hj : Comparator.comparePrimitives.jsNumPair (.num q) (.str s)
        = Option.map (fun a => (q, a)) (strToNum s) := rfl
    rw [hj]
    cases hsn : strToNum s with
    | none =>
        show (if jsToString (.num q) = jsToString (.str s) then res
            else Comparator.comparePrimitives.afterCoercion (.num q) (.str s)
              path rules res) =
          (if jsToString (.num q) = jsToString (.str s) then res
            else res.pushMismatch ⟨path, .num q, .str s, .value⟩)
        split
        · rfl
        · unfold Comparator.comparePrimitives.afterCoercion
          simp
    | some a =>
        show (if ratAbsSubLe q a rules.numericTolerance = true then res
            else res.pushMismatch ⟨path, .num q, .str s, .numeric⟩) =
          (if |q - a| ≤ rules.numericTolerance then res
            else res.pushMismatch ⟨path, .num q, .str s, .numeric⟩)
        by_cases hle : |q - a| ≤ rules.numericTolerance
        · rw [if_pos ((ratAbsSubLe_iff q a rules.numericTolerance).mpr hle),
            if_pos hle]
        · rw [if_neg (fun hb => hle ((ratAbsSubLe_iff q a rules.numericTolerance).mp hb)),
            if_neg hle]
  · unfold Comparator.comparePrimitives
    rw [if_pos (by simp [hc, jsTypeOf])]
    have hj : Comparator.comparePrimitives.jsNumPair (.str s) (.num q)
        = Option.map (fun g => (g, q)) (strToNum s) := rfl
    rw [hj]
    cases hsn : strToNum s with
    | none =>
        show (if jsToString (.str s) = jsToString (.num q) then res
            else Comparator.comparePrimitives.afterCoercion (.str s) (.num q)
              path rules res) =
          (if jsToString (.str s) = jsToString (.num q) then res
            else res.pushMismatch ⟨path, .str s, .num q, .value⟩)
        split
        · rfl
        · unfold Comparator.comparePrimitives.afterCoercion
          simp
    | some g =>
        show (if ratAbsSubLe g q rules.numericTolerance = true then res
            else res.pushMismatch ⟨path, .str s, .num q, .numeric⟩) =
          (if |g - q| ≤ rules.numericTolerance then res
            else res.pushMismatch ⟨path, .str s, .num q, .numeric⟩)
        by_cases hle : |g - q| ≤ rules.numericTolerance
        · rw [if_pos ((ratAbsSubLe_iff g q rules.numericTolerance).mpr hle),
            if_pos hle]
        · rw [if_neg (fun hb => hle ((ratAbsSubLe_iff g q rules.numericTolerance).mp hb)),
            if_neg hle]
  · unfold Comparator.comparePrimitives
    rw [if_pos ⟨by rw [hc], ht⟩]
    have hnp : Comparator.comparePrimitives.jsNumPair gt actual = none := by
      cases gt <;> cases actual <;>
        simp_all [Comparator.comparePrimitives.jsNumPair, isNumStrPair]
    rw [hnp]
    show (if jsToString gt = jsToString actual then res
        else Comparator.comparePrimitives.afterCoercion gt actual path rules res) = _
    have hne : gt ≠ actual := by
      intro he
      exact ht (by rw [he])
    split
    · rfl
    · unfold Comparator.comparePrimitives.afterCoercion
      cases gt <;> cases actual <;> simp_all [jsTypeOf]

/-- Witness for the amended C6, at the boolean/string pair of the
counterexample and at a numeric number/string pair. -/
theorem c6_witness :
    (defaultRules.typeCoercion = true ∧ (Json.bool true).isPrim = true ∧
      (Json.str "x").isPrim = true ∧
      jsTypeOf (Json.bool true) ≠ jsTypeOf (Json.str "x") ∧
      isNumStrPair (Json.bool true) (Json.str "x") = false) ∧
    Comparator.comparePrimitives (.bool true) (.str "x") "p" defaultRules
        initResult =
      (if jsToString (Json.bool true) = jsToString (Json.str "x") then initResult
        else initResult.pushMismatch ⟨"p", .bool true, .str "x", .value⟩) :=
  ⟨⟨by decide, by decide, by decide, by decide, by decide⟩,
    c6_coercion_semantics.2.2 (.bool true) (.str "x") "p" defaultRules initResult
      (by decide) (by decide) (by decide) (by decide) (by decide)⟩

/-- `SchemaInferrer.infer` (src/core/schema-inference.ts:356-363): traverse
from the root with an empty prefix, collecting the field map. -/
def SchemaInferrer.infer (data : Json) : List (String × SchemaField) :=
  SchemaInferrer.traverseObject data "" []

/-- Counterexample to C7 as stated: an empty array nested as an object
field is not skipped — at the value with the single field `a := []` the
inferrer records a field entry at path `a` (typed string, from the
`value[0] || ''` fallback). -/
theorem c7_counterexample :
    (SchemaInferrer.infer (.obj (.cons "a" (.arr .nil) .nil))).map (·.1) = ["a"] ∧
    SchemaInferrer.infer (.obj (.cons "a" (.arr .nil) .nil)) ≠ [] := by
  decide

/-- C7 amended: an empty array contributes no field when the traversal
receives it directly (the root case); but an empty array sitting as an
object field records one entry at the field's path, typed string with empty
samples.  A non-empty primitive array at the root records a single entry at
the array's own path typed from the first element; nested as an object
field it records a single entry typed from `first-element || ''`, i.e. from
the first element only when that element is truthy, and string otherwise. -/
theorem c7_inferrer_array_fields :
    (SchemaInferrer.infer (.arr .nil) = []) ∧
    (∀ k : String, SchemaInferrer.infer (.obj (.cons k (.arr .nil) .nil)) =
      [(k, ⟨k, .string, true, []⟩)]) ∧
    (∀ (x : Json) (xs : JsonList), x.isPrim = true →
      SchemaInferrer.infer (.arr (.cons x xs)) =
        [("", ⟨"", SchemaInferrer.getType x, true, (JsonList.cons x xs).take3⟩)]) ∧
    (∀ (k : String) (x : Json) (xs : JsonList), x.isPrim = true →
      SchemaInferrer.infer (.obj (.cons k (.arr (.cons x xs)) .nil)) =
        [(k, ⟨k, SchemaInferrer.getType (jsHeadOrEmptyStr (.cons x xs)), true,
          (JsonList.cons x xs).take3⟩)]) := by
  refine ⟨by decide, fun k => ?_, fun x xs hx => ?_, fun k x xs hx => ?_⟩
  · simp [SchemaInferrer.infer, SchemaInferrer.traverseObject,
      SchemaInferrer.traverseEntries, mapSet, joinPath, jsHeadOrEmptyStr,
      JsonList.take3, SchemaInferrer.getType, jsTruthy, JsonList.head?]
  · cases x <;> simp_all [SchemaInferrer.infer, SchemaInferrer.traverseObject,
      mapSet, jsTypeOf, Json.isPrim]
  · cases x <;> simp_all [SchemaInferrer.infer, SchemaInferrer.traverseObject,
      SchemaInferrer.traverseEntries, mapSet, joinPath, jsTypeOf, Json.isPrim]

/-- Witness for the amended C7, at the array with the single element 1. -/
theorem c7_witness :
    (Json.num 1).isPrim = true ∧
    SchemaInferrer.infer (.arr (.cons (.num 1) .nil)) =
      [("", ⟨"", SchemaInferrer.getType (.num 1), true,
        (JsonList.cons (.num 1) JsonList.nil).take3⟩)] :=
  ⟨by decide, c7_inferrer_array_fields.2.2.1 (.num 1) .nil (by decide)⟩

/-- The list length of a `JsonList` conversion agrees with its length. -/
theorem JsonList.length_toList : (xs : JsonList) → xs.toList.length = xs.length
  | .nil => rfl
  | .cons hd tl => by simp [JsonList.toList, JsonList.length, length_toList tl]

/-- `Set.has` membership on a list of strings is list membership. -/
theorem contains_eq_decide_mem (l : List String) (x : String) :
    l.contains x = decide (x ∈ l) := by
  by_cases h : x ∈ l
  · simp [h]
  · simp [h]

/-- C2: under the unordered strategy the primitive-array comparison is the
claimed multiset comparison under string-coerced equality — `missing` gains
exactly the ground-truth items whose `String()` coercion does not occur
among the actual items' coercions, `extra` exactly the converse, each at
the `path[]` position; consequently a reordering (a permutation) of a
primitive array compared against the original adds no missing and no extra
entries, and emits the order warning at the array's path whenever the
serializations differ (the lengths being equal for a permutation). -/
theorem c2_unordered_multiset (gt actual : JsonList) (path : String)
    (ign : List String) (rules : ComparisonRules) (res : ComparisonResult)
    (hstrat : rules.arrayStrategy = .unordered)
    (hgt : gt.toList.all Json.isPrim = true)
    (hact : actual.toList.all Json.isPrim = true) :
    ((Comparator.compareArrays gt actual path ign rules res).missing =
      res.missing ++ (gt.toList.filter (fun item =>
        decide (jsToString item ∉ actual.toList.map jsToString))).map
        (fun item => ⟨path ++ "[]", item⟩)) ∧
    ((Comparator.compareArrays gt actual path ign rules res).extra =
      res.extra ++ (actual.toList.filter (fun item =>
        decide (jsToString item ∉ gt.toList.map jsToString))).map
        (fun item => ⟨path ++ "[]", item⟩)) ∧
    (gt.toList.Perm actual.toList →
      (Comparator.compareArrays gt actual path ign rules res).missing = res.missing ∧
      (Comparator.compareArrays gt actual path ign rules res).extra = res.extra ∧
      (jsonStringify (.arr gt) ≠ jsonStringify (.arr actual) →
        (Comparator.compareArrays gt actual path ign rules res).warnings =
          res.warnings ++
            [⟨path, "Array order differs (unordered comparison enabled)"⟩])) := by
  have hca : Comparator.compareArrays gt actual path ign rules res =
      Comparator.unorderedArrays gt actual path res := by
    unfold Comparator.compareArrays
    rw [hstrat]
  have hpt : ∀ (l : List String) (f : Json → String) (x : Json),
      (!l.contains (f x)) = decide (f x ∉ l) := by
    intro l f x
    rw [contains_eq_decide_mem, decide_not]
  have hfeq1 : (fun item => !(List.map jsToString actual.toList).contains (jsToString item))
      = (fun item => decide (jsToString item ∉ List.map jsToString actual.toList)) :=
    funext (fun x => hpt _ jsToString x)
  have hfeq2 : (fun item => !(List.map jsToString gt.toList).contains (jsToString item))
      = (fun item => decide (jsToString item ∉ List.map jsToString gt.toList)) :=
    funext (fun x => hpt _ jsToString x)
  have hmiss : (Comparator.compareArrays gt actual path ign rules res).missing =
      res.missing ++ (gt.toList.filter (fun item =>
        decide (jsToString item ∉ actual.toList.map jsToString))).map
        (fun item => ⟨path ++ "[]", item⟩) := by
    rw [hca]
    unfold Comparator.unorderedArrays
    dsimp only
    rw [hfeq1]
    split
    · rfl
    · rfl
  have hextra : (Comparator.compareArrays gt actual path ign rules res).extra =
      res.extra ++ (actual.toList.filter (fun item =>
        decide (jsToString item ∉ gt.toList.map jsToString))).map
        (fun item => ⟨path ++ "[]", item⟩) := by
    rw [hca]
    unfold Comparator.unorderedArrays
    dsimp only
    rw [hfeq2]
    split
    · rfl
    · rfl
  refine ⟨hmiss, hextra, fun hperm => ?_⟩
  have hf1 : gt.toList.filter (fun item =>
      decide (jsToString item ∉ actual.toList.map jsToString)) = [] := by
    rw [List.filter_eq_nil_iff]
    intro a ha
    simp [List.mem_map_of_mem jsToString (hperm.mem_iff.mp ha)]
  have hf2 : actual.toList.filter (fun item =>
      decide (jsToString item ∉ gt.toList.map jsToString)) = [] := by
    rw [List.filter_eq_nil_iff]
    intro a ha
    simp [List.mem_map_of_mem jsToString (hperm.mem_iff.mpr ha)]
  have hlen : gt.length = actual.length := by
    rw [← JsonList.length_toList, ← JsonList.length_toList]
    exact hperm.length_eq
  refine ⟨by rw [hmiss, hf1]; simp, by rw [hextra, hf2]; simp, fun hstr => ?_⟩
  rw [hca]
  unfold Comparator.unorderedArrays
  dsimp only
  rw [if_pos ⟨hlen, hstr⟩]
  simp [ComparisonResult.pushWarning]

/-- Witness for C2 at the primitive arrays [1, 2] and [2, 1]. -/
theorem c2_witness :
    (defaultRules.arrayStrategy = ArrayStrategy.unordered ∧
      (JsonList.cons (.num 1) (.cons (.num 2) .nil)).toList.all Json.isPrim = true ∧
      (JsonList.cons (.num 2) (.cons (.num 1) .nil)).toList.all Json.isPrim = true) ∧
    (Comparator.compareArrays (JsonList.cons (.num 1) (.cons (.num 2) .nil))
        (JsonList.cons (.num 2) (.cons (.num 1) .nil)) "arr" [] defaultRules
        initResult).missing =
      initResult.missing ++
        ((JsonList.cons (.num 1) (.cons (.num 2) .nil)).toList.filter (fun item =>
          decide (jsToString item ∉
            (JsonList.cons (.num 2) (.cons (.num 1) .nil)).toList.map jsToString))).map
          (fun item => ⟨"arr" ++ "[]", item⟩) :=
  ⟨⟨by decide, by decide, by decide⟩,
    (c2_unordered_multiset (JsonList.cons (.num 1) (.cons (.num 2) .nil))
      (JsonList.cons (.num 2) (.cons (.num 1) .nil)) "arr" [] defaultRules initResult
      (by decide) (by decide) (by decide)).1⟩

/-- C8: a raise in any of the three external interactions of a case — the
input fetch, the ground-truth fetch or the service call — is caught and
turned into a case result with status `failed`, error code
`EXECUTION_ERROR` and all-zero scores; and the suite run always yields
exactly one result per queued case, in particular an erroring case never
suppresses a sibling case's result. -/
theorem c8_fault_isolation :
    (∀ (cases : List (String × CaseFetches)) (rules : ComparisonRules)
        (scfg : ScoringConfig),
      (TestOrchestrator.runCases cases rules scfg).length = cases.length ∧
      (TestOrchestrator.runCases cases rules scfg).map (·.caseId) =
        cases.map (·.1)) ∧
    (∀ (caseId : String) (rules : ComparisonRules) (scfg : ScoringConfig)
        (fx : CaseFetches),
      (fx.input.isOk && fx.groundTruth.isOk && fx.service.isOk) = false →
      ∃ msg, TestOrchestrator.runCase caseId rules scfg fx =
          failedCaseResult caseId msg ∧
        (TestOrchestrator.runCase caseId rules scfg fx).status = .failed ∧
        (TestOrchestrator.runCase caseId rules scfg fx).error =
          some ⟨msg, "EXECUTION_ERROR"⟩ ∧
        (TestOrchestrator.runCase caseId rules scfg fx).scoring = zeroScoring) := by
  have hid : ∀ (caseId : String) (rules : ComparisonRules) (scfg : ScoringConfig)
      (fx : CaseFetches),
      (TestOrchestrator.runCase caseId rules scfg fx).caseId = caseId := by
    intro caseId rules scfg fx
    obtain ⟨i, g, s⟩ := fx
    unfold TestOrchestrator.runCase
    cases i <;> cases g <;> cases s <;> rfl
  constructor
  · intro cases_ rules scfg
    constructor
    · simp [TestOrchestrator.runCases]
    · unfold TestOrchestrator.runCases
      rw [List.map_map]
      apply List.map_congr_left
      intro a _
      exact hid a.1 rules scfg a.2
  · intro caseId rules scfg fx h
    obtain ⟨i, g, s⟩ := fx
    cases i with
    | error e =>
        exact ⟨e, rfl, rfl, rfl, rfl⟩
    | ok iv =>
      cases g with
      | error e =>
          exact ⟨e, rfl, rfl, rfl, rfl⟩
      | ok gv =>
        cases s with
        | error e =>
            exact ⟨e, rfl, rfl, rfl, rfl⟩
        | ok sv =>
            simp [Except.isOk, Except.toBool] at h

/-- Witness for C8 at a case whose ground-truth fetch raises. -/
theorem c8_witness :
    ((CaseFetches.mk (.ok .null) (.error "file unreadable") (.ok .null)).input.isOk &&
      (CaseFetches.mk (.ok .null) (.error "file unreadable") (.ok .null)).groundTruth.isOk &&
      (CaseFetches.mk (.ok .null) (.error "file unreadable") (.ok .null)).service.isOk)
        = false ∧
    ∃ msg, TestOrchestrator.runCase "case-1" defaultRules defaultScoring
        (CaseFetches.mk (.ok .null) (.error "file unreadable") (.ok .null)) =
        failedCaseResult "case-1" msg ∧
      (TestOrchestrator.runCase "case-1" defaultRules defaultScoring
        (CaseFetches.mk (.ok .null) (.error "file unreadable") (.ok .null))).status
          = .failed ∧
      (TestOrchestrator.runCase "case-1" defaultRules defaultScoring
        (CaseFetches.mk (.ok .null) (.error "file unreadable") (.ok .null))).error
          = some ⟨msg, "EXECUTION_ERROR"⟩ ∧
      (TestOrchestrator.runCase "case-1" defaultRules defaultScoring
        (CaseFetches.mk (.ok .null) (.error "file unreadable") (.ok .null))).scoring
          = zeroScoring :=
  ⟨by decide, c8_fault_isolation.2 "case-1" defaultRules defaultScoring
    (CaseFetches.mk (.ok .null) (.error "file unreadable") (.ok .null)) (by decide)⟩

/-- Entry list of a JSON object, for stating properties. -/
def JsonObj.toList : JsonObj → List (String × Json)
  | .nil => []
  | .cons k v tl => (k, v) :: tl.toList

/-- The key list is the first projection of the entry list. -/
theorem JsonObj.keys_eq_map : (kvs : JsonObj) → kvs.keys = kvs.toList.map Prod.fst
  | .nil => rfl
  | .cons k v tl => by simp [JsonObj.keys, JsonObj.toList, keys_eq_map tl]

/-- In an object with distinct keys, every entry is found by lookup. -/
theorem JsonObj.lookup_self : (kvs : JsonObj) → kvs.keys.Nodup →
    ∀ p ∈ kvs.toList, kvs.lookup p.1 = some p.2
  | .nil, _, p, hp => by simp [JsonObj.toList] at hp
  | .cons k v tl, hnd, p, hp => by
      have hnd' : tl.keys.Nodup ∧ k ∉ tl.keys := by
        have := hnd
        simp [JsonObj.keys, List.nodup_cons] at this
        exact ⟨this.2, this.1⟩
      rcases (by simpa [JsonObj.toList] using hp :
          p = (k, v) ∨ p ∈ tl.toList) with h | h
      · subst h
        simp [JsonObj.lookup]
      · have hne : k ≠ p.1 := by
          intro he
          apply hnd'.2
          rw [JsonObj.keys_eq_map]
          exact he ▸ List.mem_map_of_mem Prod.fst h
        simp [JsonObj.lookup, hne]
        exact JsonObj.lookup_self tl hnd'.1 p h

/-- Values of a well-formed object's entries are well-formed. -/
theorem JsonObj.wfObj_mem : (kvs : JsonObj) → kvs.wfObj = true →
    ∀ p ∈ kvs.toList, p.2.wf = true
  | .nil, _, p, hp => by simp [JsonObj.toList] at hp
  | .cons k v tl, hw, p, hp => by
      have hw' : v.wf = true ∧ tl.wfObj = true := by
        simpa [JsonObj.wfObj, Bool.and_eq_true] using hw
      rcases (by simpa [JsonObj.toList] using hp :
          p = (k, v) ∨ p ∈ tl.toList) with h | h
      · subst h
        exact hw'.1
      · exact JsonObj.wfObj_mem tl hw'.2 p h

/-- The unordered array comparison of a list against itself changes
nothing: every item is present on the other side, and the serializations
coincide so no order warning fires. -/
theorem unordered_refl (xs : JsonList) (path : String) (res : ComparisonResult) :
    Comparator.unorderedArrays xs xs path res = res := by
  unfold Comparator.unorderedArrays
  dsimp only
  have hf : xs.toList.filter
      (fun item => !(xs.toList.map jsToString).contains (jsToString item)) = [] := by
    rw [List.filter_eq_nil_iff]
    intro a ha
    simp [contains_eq_decide_mem, List.mem_map_of_mem jsToString ha]
  rw [hf]
  rw [if_neg (by simp)]
  simp

/-- The tolerance test accepts a number against itself for any
non-negative tolerance. -/
theorem ratAbsSubLe_refl (q t : ℚ) (ht : 0 ≤ t) : ratAbsSubLe q q t = true := by
  rw [ratAbsSubLe_iff]
  simpa using ht

mutual
/-- Comparing any well-formed value against itself (empty ignore set,
default rules) leaves the result record unchanged. -/
theorem reflVal : (v : Json) → v.wf = true → ∀ (path : String)
    (res : ComparisonResult),
    Comparator.compareObject v v path [] defaultRules res = res
  | .null, _, path, res => by
      simp [Comparator.compareObject]
  | .bool b, _, path, res => by
      simp [Comparator.compareObject, Comparator.comparePrimitives, jsTypeOf,
        Comparator.comparePrimitives.afterCoercion]
  | .num q, _, path, res => by
      simp [Comparator.compareObject, Comparator.comparePrimitives, jsTypeOf,
        Comparator.comparePrimitives.afterCoercion,
        ratAbsSubLe_refl q defaultRules.numericTolerance le_rfl]
  | .str s, _, path, res => by
      simp [Comparator.compareObject, Comparator.comparePrimitives, jsTypeOf,
        Comparator.comparePrimitives.afterCoercion]
  | .arr .nil, _, path, res => by
      simp [Comparator.compareObject, JsonList.length]
  | .arr (.cons hd tl), h, path, res => by
      have hxs : (JsonList.cons hd tl).wfList = true := h
      unfold Comparator.compareObject
      rw [if_neg (by simp [JsonList.length])]
      by_cases hh : jsTypeOf hd == "object"
      · rw [if_pos (by simp [JsonList.head?, hh])]
        exact reflPos (.cons hd tl) hxs 0 path res
      · rw [if_neg (by simp [JsonList.head?]; simpa using hh)]
        show (match defaultRules.arrayStrategy with
          | ArrayStrategy.ordered =>
              Comparator.positionalLoop (.cons hd tl) (.cons hd tl) 0 path []
                defaultRules res
          | ArrayStrategy.unordered =>
              Comparator.unorderedArrays (.cons hd tl) (.cons hd tl) path res) = res
        exact unordered_refl (.cons hd tl) path res
  | .obj kvs, h, path, res => by
      have hnd : kvs.keys.Nodup ∧ kvs.wfObj = true := by
        simpa [Json.wf, Bool.and_eq_true] using h
      unfold Comparator.compareObject
      rw [if_neg (by simp [jsTypeOf])]
      exact reflObjEntries kvs kvs
        (fun p hp => ⟨JsonObj.lookup_self kvs hnd.1 p hp,
          JsonObj.wfObj_mem kvs hnd.2 p hp⟩) path res

theorem reflPos : (xs : JsonList) → xs.wfList = true → ∀ (i : Nat) (path : String)
    (res : ComparisonResult),
    Comparator.positionalLoop xs xs i path [] defaultRules res = res
  | .nil, _, _, _, _ => rfl
  | .cons g tl, h, i, path, res => by
      have h1 : g.wf = true ∧ tl.wfList = true := by
        simpa [JsonList.wfList, Bool.and_eq_true] using h
      show Comparator.positionalLoop tl tl (i + 1) path [] defaultRules
        (Comparator.compareObject g g (itemPath path i) [] defaultRules res) = res
      rw [reflVal g h1.1 (itemPath path i) res]
      exact reflPos tl h1.2 (i + 1) path res

theorem reflObjEntries : (kvs : JsonObj) → ∀ (actual : JsonObj),
    (∀ p ∈ kvs.toList, actual.lookup p.1 = some p.2 ∧ p.2.wf = true) →
    ∀ (path : String) (res : ComparisonResult),
    Comparator.compareObjEntries kvs (.obj actual) path [] defaultRules res = res
  | .nil, _, _, _, _ => rfl
  | .cons k v tl, actual, hv, path, res => by
      have hkv := hv (k, v) (by simp [JsonObj.toList])
      have hhas : jsHasKey (.obj actual) k = true := by
        simp [jsHasKey, hkv.1]
      have hget : jsGetKey (.obj actual) k = v := by
        simp [jsGetKey, hkv.1]
      show Comparator.compareObjEntries tl (.obj actual) path [] defaultRules
        (if List.contains [] (joinPath path k) = true then res
          else if !jsHasKey (.obj actual) k then
            res.pushMissing ⟨joinPath path k, v⟩
          else Comparator.compareObject v (jsGetKey (.obj actual) k)
            (joinPath path k) [] defaultRules res) = res
      rw [hhas, hget]
      simp only [List.contains, Bool.not_true, if_false, Bool.false_eq_true,
        if_neg]
      rw [reflVal v hkv.2 (joinPath path k) res]
      exact reflObjEntries tl actual
        (fun p hp => hv p (by simp [JsonObj.toList]; exact .inr hp)) path res
end

mutual
/-- Extra-field detection of a well-formed value against itself leaves the
result record unchanged. -/
theorem reflDetect : (v : Json) → v.wf = true → ∀ (path : String)
    (res : ComparisonResult),
    Comparator.detectExtraFields v v path [] res = res
  | .null, _, path, res => by simp [Comparator.detectExtraFields]
  | .bool b, _, path, res => by simp [Comparator.detectExtraFields, jsTypeOf]
  | .num q, _, path, res => by simp [Comparator.detectExtraFields, jsTypeOf]
  | .str s, _, path, res => by simp [Comparator.detectExtraFields, jsTypeOf]
  | .arr xs, _, path, res => by simp [Comparator.detectExtraFields, jsTypeOf]
  | .obj kvs, h, path, res => by
      have hnd : kvs.keys.Nodup ∧ kvs.wfObj = true := by
        simpa [Json.wf, Bool.and_eq_true] using h
      unfold Comparator.detectExtraFields
      rw [if_neg (by simp [jsTypeOf]), if_neg (by simp [jsTypeOf])]
      exact reflDetectEntries kvs kvs
        (fun p hp => ⟨JsonObj.lookup_self kvs hnd.1 p hp,
          JsonObj.wfObj_mem kvs hnd.2 p hp⟩) path res

theorem reflDetectEntries : (akvs : JsonObj) → ∀ (gt : JsonObj),
    (∀ p ∈ akvs.toList, gt.lookup p.1 = some p.2 ∧ p.2.wf = true) →
    ∀ (path : String) (res : ComparisonResult),
    Comparator.detectEntries (.obj gt) akvs path [] res = res
  | .nil, _, _, _, _ => rfl
  | .cons k v tl, gt, hv, path, res => by
      have hkv := hv (k, v) (by simp [JsonObj.toList])
      have hhas : jsHasKey (.obj gt) k = true := by
        simp [jsHasKey, hkv.1]
      have hget : jsGetKey (.obj gt) k = v := by
        simp [jsGetKey, hkv.1]
      show Comparator.detectEntries (.obj gt) tl path []
        (if List.contains [] (joinPath path k) = true ∨ List.contains [] k = true
          then res
          else if !jsHasKey (.obj gt) k then res.pushExtra ⟨joinPath path k, v⟩
          else if jsTypeOf v = "object" ∧ jsTypeOf (jsGetKey (.obj gt) k) = "object"
            then Comparator.detectExtraFields (jsGetKey (.obj gt) k) v
              (joinPath path k) [] res
            else res) = res
      rw [hhas, hget]
      have hres1 : (if List.contains [] (joinPath path k) = true ∨
          List.contains [] k = true then res
          else if !(true : Bool) then res.pushExtra ⟨joinPath path k, v⟩
          else if jsTypeOf v = "object" ∧ jsTypeOf v = "object"
            then Comparator.detectExtraFields v v (joinPath path k) [] res
            else res) = res := by
        rw [if_neg (by simp [List.contains])]
        rw [if_neg (by simp)]
        by_cases ho : jsTypeOf v = "object"
        · rw [if_pos ⟨ho, ho⟩]
          exact reflDetect v (hv (k, v) (by simp [JsonObj.toList])).2
            (joinPath path k) res
        · rw [if_neg (fun hc => ho hc.1)]
      rw [hres1]
      exact reflDetectEntries tl gt
        (fun p hp => hv p (by simp [JsonObj.toList]; exact .inr hp)) path res
end

/-- C9: for every well-formed JSON value (objects with distinct keys, as
`JSON.parse` guarantees), comparing the value against itself under the
default rules passes, with empty mismatch, missing and extra lists. -/
theorem c9_reflexivity (v : Json) (h : v.wf = true) :
    (Comparator.compare v v defaultRules).passed = true ∧
    (Comparator.compare v v defaultRules).mismatches = [] ∧
    (Comparator.compare v v defaultRules).missing = [] ∧
    (Comparator.compare v v defaultRules).extra = [] := by
  unfold Comparator.compare
  dsimp only
  have hig : defaultRules.ignoreFields = [] := rfl
  rw [hig]
  rw [reflVal v h "" initResult]
  rw [reflDetect v h "" initResult]
  simp [initResult]

/-- Witness for C9 at a nested object with an array and a null leaf. -/
theorem c9_witness :
    (Json.obj (.cons "a" (.num 1) (.cons "b"
      (.arr (.cons (.num 1) (.cons (.str "x") .nil)))
      (.cons "c" (.obj (.cons "d" .null .nil)) .nil)))).wf = true ∧
    (Comparator.compare
      (Json.obj (.cons "a" (.num 1) (.cons "b"
        (.arr (.cons (.num 1) (.cons (.str "x") .nil)))
        (.cons "c" (.obj (.cons "d" .null .nil)) .nil))))
      (Json.obj (.cons "a" (.num 1) (.cons "b"
        (.arr (.cons (.num 1) (.cons (.str "x") .nil)))
        (.cons "c" (.obj (.cons "d" .null .nil)) .nil))))
      defaultRules).passed = true :=
  ⟨by decide, (c9_reflexivity _ (by decide)).1⟩

mutual
/-- Removal of every object entry named `k`, at every depth, from a JSON
value; used to state that the extra-field traversal never reports a key
whose bare name is ignored. -/
def eraseKeyDeep (k : String) : Json → Json
  | .obj kvs => .obj (eraseKeyDeepObj k kvs)
  | .arr xs => .arr (eraseKeyDeepList k xs)
  | v => v

def eraseKeyDeepList (k : String) : JsonList → JsonList
  | .nil => .nil
  | .cons hd tl => .cons (eraseKeyDeep k hd) (eraseKeyDeepList k tl)

def eraseKeyDeepObj (k : String) : JsonObj → JsonObj
  | .nil => .nil
  | .cons key v tl =>
      if key = k then eraseKeyDeepObj k tl
      else .cons key (eraseKeyDeep k v) (eraseKeyDeepObj k tl)
end

/-- Erasing a key never changes a value's `typeof`. -/
theorem jsTypeOf_erase (k : String) (v : Json) :
    jsTypeOf (eraseKeyDeep k v) = jsTypeOf v := by
  cases v <;> rfl

/-- Path list of the extras after a push. -/
theorem pushExtra_paths (res : ComparisonResult) (e : ExtraField) :
    (res.pushExtra e).extra.map (·.path) = res.extra.map (·.path) ++ [e.path] := by
  simp [ComparisonResult.pushExtra]

mutual
/-- With `k` in the ignore set, the extra-field traversal reports the same
paths whether or not every `k` entry is erased from the actual value: no
extra entry is ever attributable to an ignored bare key, at any depth. -/
theorem detectErase (k : String) (ign : List String) (hk : ign.contains k = true) :
    (a : Json) → ∀ (gt : Json) (path : String) (res1 res2 : ComparisonResult),
    res1.extra.map (·.path) = res2.extra.map (·.path) →
    (Comparator.detectExtraFields gt (eraseKeyDeep k a) path ign res1).extra.map (·.path) =
    (Comparator.detectExtraFields gt a path ign res2).extra.map (·.path)
  | .null, gt, path, res1, res2, h => by
      simpa [Comparator.detectExtraFields, eraseKeyDeep] using h
  | .bool b, gt, path, res1, res2, h => by
      simpa [Comparator.detectExtraFields, eraseKeyDeep, jsTypeOf] using h
  | .num q, gt, path, res1, res2, h => by
      simpa [Comparator.detectExtraFields, eraseKeyDeep, jsTypeOf] using h
  | .str s, gt, path, res1, res2, h => by
      simpa [Comparator.detectExtraFields, eraseKeyDeep, jsTypeOf] using h
  | .arr xs, gt, path, res1, res2, h => by
      cases gt <;>
        simpa [Comparator.detectExtraFields, eraseKeyDeep, jsTypeOf] using h
  | .obj akvs, gt, path, res1, res2, h => by
      match gt with
      | .null => simpa [Comparator.detectExtraFields, eraseKeyDeep, jsTypeOf] using h
      | .bool _ => simpa [Comparator.detectExtraFields, eraseKeyDeep, jsTypeOf] using h
      | .num _ => simpa [Comparator.detectExtraFields, eraseKeyDeep, jsTypeOf] using h
      | .str _ => simpa [Comparator.detectExtraFields, eraseKeyDeep, jsTypeOf] using h
      | .arr _ => simpa [Comparator.detectExtraFields, eraseKeyDeep, jsTypeOf] using h
      | .obj gkvs =>
          show (Comparator.detectExtraFields (.obj gkvs)
              (eraseKeyDeep k (.obj akvs)) path ign res1).extra.map (·.path) =
            (Comparator.detectExtraFields (.obj gkvs) (.obj akvs) path ign
              res2).extra.map (·.path)
          have he : eraseKeyDeep k (.obj akvs) = .obj (eraseKeyDeepObj k akvs) := rfl
          rw [he]
          unfold Comparator.detectExtraFields
          rw [if_neg (by simp [jsTypeOf]), if_neg (by simp [jsTypeOf]),
            if_neg (by simp [jsTypeOf]), if_neg (by simp [jsTypeOf])]
          exact detectEraseEntries k ign hk akvs (.obj gkvs) path res1 res2 h

theorem detectEraseEntries (k : String) (ign : List String)
    (hk : ign.contains k = true) :
    (akvs : JsonObj) → ∀ (gt : Json) (path : String) (res1 res2 : ComparisonResult),
    res1.extra.map (·.path) = res2.extra.map (·.path) →
    (Comparator.detectEntries gt (eraseKeyDeepObj k akvs) path ign res1).extra.map (·.path) =
    (Comparator.detectEntries gt akvs path ign res2).extra.map (·.path)
  | .nil, gt, path, res1, res2, h => by
      simpa [eraseKeyDeepObj, Comparator.detectEntries] using h
  | .cons key v tl, gt, path, res1, res2, h => by
      by_cases hkey : key = k
      · have he : eraseKeyDeepObj k (.cons key v tl) = eraseKeyDeepObj k tl := by
          simp [eraseKeyDeepObj, hkey]
        rw [he]
        have hskip : Comparator.detectEntries gt (.cons key v tl) path ign res2 =
            Comparator.detectEntries gt tl path ign res2 := by
          show Comparator.detectEntries gt tl path ign
            (if ign.contains (joinPath path key) = true ∨ ign.contains key = true
              then res2
              else if !jsHasKey gt key then res2.pushExtra ⟨joinPath path key, v⟩
              else if jsTypeOf v = "object" ∧ jsTypeOf (jsGetKey gt key) = "object"
                then Comparator.detectExtraFields (jsGetKey gt key) v
                  (joinPath path key) ign res2
                else res2) = _
          rw [if_pos (Or.inr (hkey ▸ hk))]
        rw [hskip]
        exact detectEraseEntries k ign hk tl gt path res1 res2 h
      · have he : eraseKeyDeepObj k (.cons key v tl) =
            .cons key (eraseKeyDeep k v) (eraseKeyDeepObj k tl) := by
          simp [eraseKeyDeepObj, hkey]
        rw [he]
        have hstep1 : Comparator.detectEntries gt
            (.cons key (eraseKeyDeep k v) (eraseKeyDeepObj k tl)) path ign res1 =
            Comparator.detectEntries gt (eraseKeyDeepObj k tl) path ign
            (if ign.contains (joinPath path key) = true ∨ ign.contains key = true
              then res1
              else if !jsHasKey gt key then
                res1.pushExtra ⟨joinPath path key, eraseKeyDeep k v⟩
              else if jsTypeOf (eraseKeyDeep k v) = "object" ∧
                  jsTypeOf (jsGetKey gt key) = "object"
                then Comparator.detectExtraFields (jsGetKey gt key)
                  (eraseKeyDeep k v) (joinPath path key) ign res1
                else res1) := rfl
        have hstep2 : Comparator.detectEntries gt (.cons key v tl) path ign res2 =
            Comparator.detectEntries gt tl path ign
            (if ign.contains (joinPath path key) = true ∨ ign.contains key = true
              then res2
              else if !jsHasKey gt key then res2.pushExtra ⟨joinPath path key, v⟩
              else if jsTypeOf v = "object" ∧ jsTypeOf (jsGetKey gt key) = "object"
                then Comparator.detectExtraFields (jsGetKey gt key) v
                  (joinPath path key) ign res2
                else res2) := rfl
        rw [hstep1, hstep2]
        by_cases hc : ign.contains (joinPath path key) = true ∨ ign.contains key = true
        · rw [if_pos hc, if_pos hc]
          exact detectEraseEntries k ign hk tl gt path res1 res2 h
        · rw [if_neg hc, if_neg hc]
          by_cases hhas : jsHasKey gt key
          · rw [if_neg (show ¬((!jsHasKey gt key) = true) by simp [hhas]),
              if_neg (show ¬((!jsHasKey gt key) = true) by simp [hhas])]
            rw [jsTypeOf_erase]
            by_cases hobj : jsTypeOf v = "object" ∧ jsTypeOf (jsGetKey gt key) = "object"
            · rw [if_pos hobj, if_pos hobj]
              exact detectEraseEntries k ign hk tl gt path _ _
                (detectErase k ign hk v (jsGetKey gt key) (joinPath path key)
                  res1 res2 h)
            · rw [if_neg hobj, if_neg hobj]
              exact detectEraseEntries k ign hk tl gt path res1 res2 h
          · rw [if_pos (show (!jsHasKey gt key) = true by simp [hhas]),
              if_pos (show (!jsHasKey gt key) = true by simp [hhas])]
            exact detectEraseEntries k ign hk tl gt path _ _
              (by rw [pushExtra_paths, pushExtra_paths, h])
end

/-- C10: a key whose bare name is in the ignore set is never reported by
the extra-field detection traversal at any depth (erasing all its
occurrences from the actual value leaves the reported extra paths
unchanged, and a concrete nested extra under an ignored bare key is
suppressed), whereas the missing/mismatch traversal matches ignore entries
only against full dotted paths, so the same bare ignore entry does not
suppress a missing report for a nested occurrence of that key. -/
theorem c10_ignore_scope :
    (∀ (ign : List String) (k : String), ign.contains k = true →
      ∀ (gt a : Json) (path : String) (res : ComparisonResult),
        (Comparator.detectExtraFields gt (eraseKeyDeep k a) path ign
          res).extra.map (·.path)
          = (Comparator.detectExtraFields gt a path ign res).extra.map (·.path)) ∧
    ((Comparator.compare (.obj (.cons "a" (.obj .nil) .nil))
        (.obj (.cons "a" (.obj (.cons "b" (.num 1) .nil)) .nil))
        { defaultRules with ignoreFields := ["b"] }).extra = []) ∧
    ((Comparator.compare (.obj (.cons "a" (.obj (.cons "b" (.num 1) .nil)) .nil))
        (.obj (.cons "a" (.obj .nil) .nil))
        { defaultRules with ignoreFields := ["b"] }).missing = [⟨"a.b", .num 1⟩]) := by
  refine ⟨fun ign k hk gt a path res =>
    detectErase k ign hk a gt path res res rfl, by decide, by decide⟩

/-- Witness for C10: erasing the ignored key `b` from an actual object
leaves the reported extra paths unchanged. -/
theorem c10_witness :
    (["b"].contains "b" = true) ∧
    (Comparator.detectExtraFields (.obj .nil)
        (eraseKeyDeep "b" (.obj (.cons "x" (.num 1) (.cons "b" (.num 2) .nil))))
        "" ["b"] initResult).extra.map (·.path)
      = (Comparator.detectExtraFields (.obj .nil)
        (.obj (.cons "x" (.num 1) (.cons "b" (.num 2) .nil)))
        "" ["b"] initResult).extra.map (·.path) :=
  ⟨by decide, c10_ignore_scope.1 ["b"] "b" (by decide) (.obj .nil)
    (.obj (.cons "x" (.num 1) (.cons "b" (.num 2) .nil))) "" initResult⟩
